import Mathlib

/-!
Verification of the dataframe-preprocessing pipeline of `chartlib/covid_chart.py`
(method `CovidChart._preprocess_df`), a shallow embedding over lists of records.

Modelling conventions:
* a pandas dataframe is a `List` of records, in row order;
* group labels and lockdown types (strings in the source) are modelled as
  naturals carrying the same total order that pandas uses for sorting keys;
* dates are integers (day numbers), so `utils.days_between a b = b - a`;
* exact measures are rationals; the only floating-point computation,
  `np.exp(np.log(lockdown_y / intercept) / lockdown_x)` (line 108), is embedded
  symbolically by `slopeSym`, which performs the IEEE-754 case analysis
  (NaN / signed-infinity propagation of division, `np.log`, `np.exp`) on exact
  rationals and returns either a degenerate tag or the exact arguments of the
  finite value `exp (log r / lx)`;
* a missing value (NaN produced by a left join / append) is `Option.none`,
  and for the slope column it is `SlopeSym.nan`.
-/

namespace Covid

/-- Input observation row: `(groupcol, xcol=date, ycol)` of the raw dataframe. -/
structure Obs where
  group : ℕ
  date : ℤ
  raw : ℚ
deriving DecidableEq, Repr

/-- Row after the cumulation step (lines 68-74): raw columns plus `y`. -/
structure NRow where
  group : ℕ
  date : ℤ
  y : ℚ
deriving DecidableEq, Repr

/-- Row after the start-criterion transform (line 80): adds the per-group anchor
date `date_of_N` and the integer offset `x`. -/
structure ARow where
  group : ℕ
  date : ℤ
  y : ℚ
  dateOfN : ℤ
  x : ℤ
deriving DecidableEq, Repr

/-- Row of the `quarantine_df` input after `dropna` (line 83): all fields present. -/
structure QRow where
  group : ℕ
  lockdownDate : ℤ
  lockdownType : ℕ
deriving DecidableEq, Repr

/-- Quarantine row merged with `date_of_N` and with `lockdown_x` computed
(lines 84-87). -/
structure QXRow where
  group : ℕ
  lockdownDate : ℤ
  lockdownType : ℕ
  lockdownX : ℤ
deriving DecidableEq, Repr

/-- Symbolic IEEE-754 result of `np.exp(np.log(ly / ic) / lx)` (line 108).
`nan` is NaN, `posinf` is `+inf` (from `exp(+inf)`), `zero` is `+0.0` (from
`exp(-inf)`), and `val r lx` is the finite positive value `exp (log r / lx)`
with `r > 0` the exact ratio `ly / ic`. (`exp` of a finite float is finite, and
`-inf` is impossible as an `exp` output, so these four cases are exhaustive.) -/
inductive SlopeSym where
  | nan : SlopeSym
  | posinf : SlopeSym
  | zero : SlopeSym
  | val : ℚ → ℤ → SlopeSym
deriving DecidableEq, Repr

/-- Row of the joined/output table. Nullable columns (NaN introduced by the
left merges of lines 93-107 and the append of line 118) are `Option`s. -/
structure JRow where
  group : ℕ
  date : Option ℤ
  y : Option ℚ
  dateOfN : Option ℤ
  x : Option ℤ
  lockdownDate : Option ℤ
  lockdownX : Option ℤ
  lockdownType : Option ℕ
  intercept : Option ℚ
  lockdownY : Option ℚ
  slope : SlopeSym
deriving DecidableEq, Repr

/-- Cumulation step, lines 68-74 of `covid_chart.py`: if `ycol_is_cumulative`
the measure is copied into `y`; otherwise `y` is the per-group `cumsum` of the
measure, taken in dataframe row order (row `i` gets the sum of the raw measure
over rows `j ≤ i` of the same group). -/
def normalize (cum : Bool) (rows : List Obs) : List NRow :=
  if cum then
    rows.map (fun r => ⟨r.group, r.date, r.raw⟩)
  else
    (List.range rows.length).map (fun i =>
      let r := rows.getD i ⟨0, 0, 0⟩
      ⟨r.group, r.date,
        (((List.range rows.length).filter (fun j =>
            decide (j ≤ i) && decide ((rows.getD j ⟨0, 0, 0⟩).group = r.group))).map
          (fun j => (rows.getD j ⟨0, 0, 0⟩).raw)).sum⟩)

/-- Cumulation as worded by the spec (section 4.1): the running sum of the raw
measure within each group ordered by date (stable: equal dates tie-broken by
row position). Used to compare the spec's wording against the source. -/
def specNormalize (cum : Bool) (rows : List Obs) : List NRow :=
  if cum then
    rows.map (fun r => ⟨r.group, r.date, r.raw⟩)
  else
    (List.range rows.length).map (fun i =>
      let r := rows.getD i ⟨0, 0, 0⟩
      ⟨r.group, r.date,
        (((List.range rows.length).filter (fun j =>
            let s := rows.getD j ⟨0, 0, 0⟩
            decide (s.group = r.group) &&
              (decide (s.date < r.date) || (decide (s.date = r.date) && decide (j ≤ i))))).map
          (fun j => (rows.getD j ⟨0, 0, 0⟩).raw)).sum⟩)

/-- Maximum of a list, mirroring a pandas column `max()` after dropping NaNs
(an empty column gives NaN, i.e. `none`). -/
def listMax {α : Type} [Max α] : List α → Option α
  | [] => none
  | a :: l =>
    match listMax l with
    | none => some a
    | some b => some (max a b)

/-- Peak `y` of group `g`, as computed by `df.groupby(groupcol)[Y].max()`
(line 77): the true maximum of the group's `y` values (negative peaks
included). For a group with no rows pandas would give NaN; that case is
defaulted to `0` here and is unreachable, since the peak is only ever taken
for groups present in the dataframe. -/
def maxY (rows : List NRow) (g : ℕ) : ℚ :=
  (listMax ((rows.filter (fun r => decide (r.group = g))).map (fun r => r.y))).getD 0

/-- Distinct group keys in ascending order, as produced by `df.groupby(groupcol)`
(pandas sorts group keys). -/
def sortedGroups (l : List ℕ) : List ℕ :=
  List.insertionSort (· ≤ ·) l.dedup

/-- Ordering used to embed `Series.nlargest(k)` (line 77) on the key-ascending
series produced by `groupby`: descending by value, ties broken by ascending
key. (`nlargest` with the default `keep=first` is a stable descending sort, and
on a key-ascending input a stable descending sort orders ties by ascending key,
which is what this total order says directly.) -/
def entryLE (a b : ℕ × ℚ) : Prop :=
  b.2 < a.2 ∨ (a.2 = b.2 ∧ a.1 ≤ b.1)

instance : DecidableRel entryLE := fun a b => by
  unfold entryLE; infer_instance

instance : IsTotal (ℕ × ℚ) entryLE where
  total a b := by
    rcases lt_trichotomy a.2 b.2 with h | h | h
    · exact Or.inr (Or.inl h)
    · rcases le_total a.1 b.1 with h' | h'
      · exact Or.inl (Or.inr ⟨h, h'⟩)
      · exact Or.inr (Or.inr ⟨h.symm, h'⟩)
    · exact Or.inl (Or.inl h)

instance : IsTrans (ℕ × ℚ) entryLE where
  trans a b c hab hbc := by
    rcases hab with h1 | ⟨h1, h1'⟩ <;> rcases hbc with h2 | ⟨h2, h2'⟩
    · exact Or.inl (h2.trans h1)
    · exact Or.inl (h2 ▸ h1)
    · exact Or.inl (h1.symm ▸ h2)
    · exact Or.inr ⟨h1.trans h2, h1'.trans h2'⟩

/-- Top-K filter, lines 76-78 of `covid_chart.py`:
`top_k_groups = list(df.groupby(groupcol)[Y].max().nlargest(k).index)` followed
by `df.loc[df[groupcol].isin(top_k_groups)]`. -/
def topKFilter (k : ℕ) (rows : List NRow) : List NRow :=
  let groups := sortedGroups (rows.map (fun r => r.group))
  let entries := groups.map (fun g => (g, maxY rows g))
  let top := ((List.insertionSort entryLE entries).take k).map (fun e => e.1)
  rows.filter (fun r => decide (r.group ∈ top))

/-- Integer day difference, `utils.days_between a b` = days from `a` to `b`.
Modelled from the spec: `chartlib/utils.py` is not part of the sources; the
spec fixes the semantics (`x` is "date minus anchor" and `lockdown_x` is
positive exactly when the intervention falls after the anchor). -/
def daysBetween (a b : ℤ) : ℤ :=
  b - a

/-- Anchor date of a group. Modelled from the spec: the concrete
`DaysSinceNumReached.transform` lives in `chartlib/start_criterion.py`, which
is not part of the sources; per spec section 4.2 the anchor is the first
(earliest) date at which the group's cumulative measure reaches the threshold. -/
def anchor (rows : List NRow) (g : ℕ) (threshold : ℚ) : Option ℤ :=
  ((rows.filter (fun r => decide (r.group = g) && decide (threshold ≤ r.y))).map
    (fun r => r.date)).min?

/-- Start-criterion transform (line 80). Modelled from the spec (section 4.2,
`DaysSinceThresholdReached`): each row of a group that reaches the threshold
gets the group anchor `date_of_N` and the offset `x = days_between(anchor,
date)`; groups that never reach the threshold are dropped entirely. -/
def transform (threshold : ℚ) (rows : List NRow) : List ARow :=
  rows.filterMap (fun r =>
    match anchor rows r.group threshold with
    | none => none
    | some a => some ⟨r.group, r.date, r.y, a, daysBetween a r.date⟩)

/-- First element minimising `f`, i.e. the row selected by
`groupby(...).lockdown_x.idxmin()` within one group (line 91): pandas `idxmin`
returns the index of the first occurrence of the minimum. -/
def firstMinBy (f : QXRow → ℤ) : List QXRow → Option QXRow
  | [] => none
  | a :: rest =>
    match firstMinBy f rest with
    | none => some a
    | some b => if f a ≤ f b then some a else some b

/-- First row maximising `x`, i.e. the row selected by
`groupby(...).x.idxmax()` within one group (line 95): pandas `idxmax` returns
the index of the first occurrence of the maximum. -/
def firstMaxBy (f : ARow → ℤ) : List ARow → Option ARow
  | [] => none
  | a :: rest =>
    match firstMaxBy f rest with
    | none => some a
    | some b => if f b ≤ f a then some a else some b

/-- Inner merge of the dropna'd quarantine table with `df[[groupcol,
'date_of_N']]` on the group column, followed by the `lockdown_x` computation
(lines 84-87): each quarantine row is replicated once per dataframe row of the
same group (left-frame order, right matches in dataframe order), and
`lockdown_x = days_between(date_of_N, lockdown_date)`. -/
def mergeQuarantine (df : List ARow) (q : List QRow) : List QXRow :=
  q.flatMap (fun qr =>
    (df.filter (fun r => decide (r.group = qr.group))).map (fun r =>
      ⟨qr.group, qr.lockdownDate, qr.lockdownType,
        daysBetween r.dateOfN qr.lockdownDate⟩))

/-- Quarantine rows with a strictly positive offset, line 90:
`quarantine_df.loc[quarantine_df.lockdown_x > 0]`. -/
def qxPos (df : List ARow) (q : List QRow) : List QXRow :=
  (mergeQuarantine df q).filter (fun r => decide (0 < r.lockdownX))

/-- Event retained for group `g` by line 91
(`quarantine_df.loc[quarantine_df.groupby(groupcol).lockdown_x.idxmin()]`):
the first qualifying event of `g` attaining the minimal `lockdown_x`, or `none`
when `g` has no qualifying event. -/
def retainedEvent (df : List ARow) (q : List QRow) (g : ℕ) : Option QXRow :=
  firstMinBy (fun r => r.lockdownX)
    ((qxPos df q).filter (fun r => decide (r.group = g)))

/-- Intercept of group `g`, lines 97-102:
`df.loc[df.x == 0].groupby(groupcol).first()` merged back on the group column —
the `y` of the first row of `g` with `x == 0`, or `none` (NaN after the left
merge) when no such row exists. -/
def interceptOf (df : List ARow) (g : ℕ) : Option ℚ :=
  ((df.filter (fun r => decide (r.group = g) && decide (r.x = 0))).head?).map
    (fun r => r.y)

/-- Value `lockdown_y` of group `g`, lines 95-96 and 103-107: among the rows of
`g` with `x ≤ lockdown_x` (no rows when `g` has no event, since a comparison
with NaN is false), the `y` of the first row attaining the maximal `x`; `none`
(NaN after the left merge) when there is no such row. -/
def lockdownYOf (df : List ARow) (q : List QRow) (g : ℕ) : Option ℚ :=
  match retainedEvent df q g with
  | none => none
  | some e =>
    (firstMaxBy (fun r => r.x)
      (df.filter (fun r => decide (r.group = g) && decide (r.x ≤ e.lockdownX)))).map
      (fun r => r.y)

/-- Symbolic evaluation of `np.exp(np.log(ly / ic) / lx)` (line 108) under
IEEE-754 semantics on the exact values: a NaN operand propagates; `ly / 0.0`
is `±inf` (or NaN for `0/0`); `np.log` maps negatives to NaN, `±0.0` to `-inf`
and `+inf` to `+inf`; dividing `±inf` by the nonnegative (resp. negative)
`lockdown_x` keeps (resp. flips) the sign, and `log r / 0.0` is `±inf` or NaN
according to the sign of `log r`; finally `exp(-inf) = 0`, `exp(+inf) = +inf`,
and `exp` of a finite value is the finite `val` case. -/
def slopeSym (ly ic : Option ℚ) (lx : Option ℤ) : SlopeSym :=
  match ly, ic, lx with
  | some ly, some ic, some lx =>
    if ic = 0 then
      if 0 < ly then (if 0 ≤ lx then .posinf else .zero) else .nan
    else if ly / ic < 0 then .nan
    else if ly / ic = 0 then (if 0 ≤ lx then .zero else .posinf)
    else
      if lx = 0 then
        if ly / ic = 1 then .nan else if 1 < ly / ic then .posinf else .zero
      else .val (ly / ic) lx
  | _, _, _ => .nan

/-- Finite real value of a symbolic slope: `none` for NaN and `+inf`. -/
noncomputable def SlopeSym.finVal : SlopeSym → Option ℝ
  | .nan => none
  | .posinf => none
  | .zero => some 0
  | .val r lx => some (Real.exp (Real.log (r : ℝ) / (lx : ℝ)))

/-- Joined row built from one original row of `df` (lines 93-108): the left
merge of the retained event on the group column, the left merges of
`intercept` and `lockdown_y`, and the row-wise slope column. -/
def joinRow (df : List ARow) (q : List QRow) (r : ARow) : JRow :=
  let ev := retainedEvent df q r.group
  let ic := interceptOf df r.group
  let ly := lockdownYOf df q r.group
  { group := r.group, date := some r.date, y := some r.y,
    dateOfN := some r.dateOfN, x := some r.x,
    lockdownDate := ev.map (fun e => e.lockdownDate),
    lockdownX := ev.map (fun e => e.lockdownX),
    lockdownType := ev.map (fun e => e.lockdownType),
    intercept := ic, lockdownY := ly,
    slope := slopeSym ly ic (ev.map (fun e => e.lockdownX)) }

/-- Rows of the joined dataframe corresponding to the original rows of `df`
(lines 93-108). -/
def joinedOriginal (df : List ARow) (q : List QRow) : List JRow :=
  df.map (joinRow df q)

/-- Synthetic row of one group, lines 116-118:
`df.groupby(groupcol).max().reset_index()[[groupcol, lockdown_X,
'lockdown_type']]` takes the NaN-skipping per-group column maxima of
`lockdown_x` and `lockdown_type`, then `x` is overridden to `lockdown_x`; the
remaining columns are absent from `new_rows` and become NaN on append. -/
def synthRow (df : List ARow) (q : List QRow) (g : ℕ) : JRow :=
  let gl := (joinedOriginal df q).filter (fun r => decide (r.group = g))
  let lx := listMax (gl.filterMap (fun r => r.lockdownX))
  let lt := listMax (gl.filterMap (fun r => r.lockdownType))
  { group := g, date := none, y := none, dateOfN := none, x := lx,
    lockdownDate := none, lockdownX := lx, lockdownType := lt,
    intercept := none, lockdownY := none, slope := .nan }

/-- Synthetic rows appended by line 118: one `synthRow` per distinct group of
the dataframe, group keys in ascending order. -/
def synthRows (df : List ARow) (q : List QRow) : List JRow :=
  (sortedGroups (df.map (fun r => r.group))).map (synthRow df q)

/-- Intervention-join stage, lines 81-118 of `covid_chart.py`: the joined
original rows followed by the appended synthetic rows
(`df.append(new_rows, ignore_index=True, sort=False)`). -/
def joinStage (df : List ARow) (q : List QRow) : List JRow :=
  joinedOriginal df q ++ synthRows df q

/-- Aligned row viewed as an output row when no quarantine table is supplied
(the lockdown columns never exist; they are uniformly absent). -/
def toJRow (r : ARow) : JRow :=
  { group := r.group, date := some r.date, y := some r.y,
    dateOfN := some r.dateOfN, x := some r.x, lockdownDate := none,
    lockdownX := none, lockdownType := none, intercept := none,
    lockdownY := none, slope := .nan }

/-- Predicate of the x-domain filter, lines 120-122:
`(df.x >= xmin) & (df.x <= xmax)`; a NaN `x` (synthetic row of a group without
an event) fails both comparisons. -/
def inXDomain (lo hi : ℤ) (r : JRow) : Bool :=
  match r.x with
  | some v => decide (lo ≤ v) && decide (v ≤ hi)
  | none => false

/-- Predicate of the y-domain filter, lines 123-125:
`(df.y >= ymin) & (df.y <= ymax)`; a NaN `y` (any synthetic row) fails both
comparisons. -/
def inYDomain (lo hi : ℚ) (r : JRow) : Bool :=
  match r.y with
  | some v => decide (lo ≤ v) && decide (v ≤ hi)
  | none => false

/-- Domain clip on `x`, lines 120-122 of `covid_chart.py`. -/
def clipX (lo hi : ℤ) (l : List JRow) : List JRow :=
  l.filter (inXDomain lo hi)

/-- Domain clip on `y`, lines 123-125 of `covid_chart.py`. -/
def clipY (lo hi : ℚ) (l : List JRow) : List JRow :=
  l.filter (inYDomain lo hi)

/-- Whole preprocessing pipeline, `CovidChart._preprocess_df` (lines 66-126):
cumulation, optional top-K filter, start-criterion transform (spec-modelled),
optional intervention join with synthetic rows, optional x/y domain clips. -/
def preprocess (cum : Bool) (topk : Option ℕ) (threshold : ℚ)
    (q : Option (List QRow)) (xdom : Option (ℤ × ℤ)) (ydom : Option (ℚ × ℚ))
    (rows : List Obs) : List JRow :=
  let n := normalize cum rows
  let n2 := match topk with
    | some k => topKFilter k n
    | none => n
  let a := transform threshold n2
  let j := match q with
    | some qr => joinStage a qr
    | none => a.map toJRow
  let c1 := match xdom with
    | some (lo, hi) => clipX lo hi j
    | none => j
  match ydom with
  | some (lo, hi) => clipY lo hi c1
  | none => c1

/-! Helper lemmas about the selection primitives. -/

lemma firstMinBy_mem (f : QXRow → ℤ) (l : List QXRow) (b : QXRow)
    (h : firstMinBy f l = some b) : b ∈ l := by
  induction l with
  | nil => simp [firstMinBy] at h
  | cons a rest ih =>
    cases hm : firstMinBy f rest with
    | none =>
      simp only [firstMinBy, hm] at h
      exact (Option.some_inj.mp h) ▸ List.mem_cons_self a rest
    | some c =>
      simp only [firstMinBy, hm] at h
      by_cases hac : f a ≤ f c
      · rw [if_pos hac] at h
        exact (Option.some_inj.mp h) ▸ List.mem_cons_self a rest
      · rw [if_neg hac] at h
        exact List.mem_cons_of_mem a (ih ((Option.some_inj.mp h) ▸ hm))

lemma firstMinBy_isSome (f : QXRow → ℤ) (l : List QXRow) (hl : l ≠ []) :
    ∃ b, firstMinBy f l = some b := by
  cases l with
  | nil => exact absurd rfl hl
  | cons a rest =>
    cases hm : firstMinBy f rest with
    | none => exact ⟨a, by simp only [firstMinBy, hm]⟩
    | some c =>
      by_cases hac : f a ≤ f c
      · exact ⟨a, by simp only [firstMinBy, hm]; rw [if_pos hac]⟩
      · exact ⟨c, by simp only [firstMinBy, hm]; rw [if_neg hac]⟩

lemma firstMinBy_le (f : QXRow → ℤ) :
    ∀ (l : List QXRow) (b : QXRow), firstMinBy f l = some b → ∀ a ∈ l, f b ≤ f a := by
  intro l
  induction l with
  | nil => intro b h; simp [firstMinBy] at h
  | cons a rest ih =>
    intro b h a' ha'
    rcases List.mem_cons.mp ha' with rfl | ha'
    · cases hm : firstMinBy f rest with
      | none =>
        simp only [firstMinBy, hm] at h
        exact le_of_eq (congrArg f (Option.some_inj.mp h).symm)
      | some c =>
        simp only [firstMinBy, hm] at h
        by_cases hac : f a' ≤ f c
        · rw [if_pos hac] at h
          exact le_of_eq (congrArg f (Option.some_inj.mp h).symm)
        · rw [if_neg hac] at h
          rw [← Option.some_inj.mp h]
          exact le_of_not_le hac
    · cases hm : firstMinBy f rest with
      | none =>
        rcases firstMinBy_isSome f rest (List.ne_nil_of_mem ha') with ⟨c, hc⟩
        rw [hc] at hm
        cases hm
      | some c =>
        simp only [firstMinBy, hm] at h
        have hc := ih c hm a' ha'
        by_cases hac : f a ≤ f c
        · rw [if_pos hac] at h
          rw [← Option.some_inj.mp h]
          exact hac.trans hc
        · rw [if_neg hac] at h
          rw [← Option.some_inj.mp h]
          exact hc

lemma firstMaxBy_mem (f : ARow → ℤ) (l : List ARow) (b : ARow)
    (h : firstMaxBy f l = some b) : b ∈ l := by
  induction l with
  | nil => simp [firstMaxBy] at h
  | cons a rest ih =>
    cases hm : firstMaxBy f rest with
    | none =>
      simp only [firstMaxBy, hm] at h
      exact (Option.some_inj.mp h) ▸ List.mem_cons_self a rest
    | some c =>
      simp only [firstMaxBy, hm] at h
      by_cases hac : f c ≤ f a
      · rw [if_pos hac] at h
        exact (Option.some_inj.mp h) ▸ List.mem_cons_self a rest
      · rw [if_neg hac] at h
        exact List.mem_cons_of_mem a (ih ((Option.some_inj.mp h) ▸ hm))

lemma firstMaxBy_isSome (f : ARow → ℤ) (l : List ARow) (hl : l ≠ []) :
    ∃ b, firstMaxBy f l = some b := by
  cases l with
  | nil => exact absurd rfl hl
  | cons a rest =>
    cases hm : firstMaxBy f rest with
    | none => exact ⟨a, by simp only [firstMaxBy, hm]⟩
    | some c =>
      by_cases hac : f c ≤ f a
      · exact ⟨a, by simp only [firstMaxBy, hm]; rw [if_pos hac]⟩
      · exact ⟨c, by simp only [firstMaxBy, hm]; rw [if_neg hac]⟩

lemma firstMaxBy_ge (f : ARow → ℤ) :
    ∀ (l : List ARow) (b : ARow), firstMaxBy f l = some b → ∀ a ∈ l, f a ≤ f b := by
  intro l
  induction l with
  | nil => intro b h; simp [firstMaxBy] at h
  | cons a rest ih =>
    intro b h a' ha'
    rcases List.mem_cons.mp ha' with rfl | ha'
    · cases hm : firstMaxBy f rest with
      | none =>
        simp only [firstMaxBy, hm] at h
        exact le_of_eq (congrArg f (Option.some_inj.mp h))
      | some c =>
        simp only [firstMaxBy, hm] at h
        by_cases hac : f c ≤ f a'
        · rw [if_pos hac] at h
          exact le_of_eq (congrArg f (Option.some_inj.mp h))
        · rw [if_neg hac] at h
          rw [← Option.some_inj.mp h]
          exact le_of_not_le hac
    · cases hm : firstMaxBy f rest with
      | none =>
        rcases firstMaxBy_isSome f rest (List.ne_nil_of_mem ha') with ⟨c, hc⟩
        rw [hc] at hm
        cases hm
      | some c =>
        simp only [firstMaxBy, hm] at h
        have hc := ih c hm a' ha'
        by_cases hac : f c ≤ f a
        · rw [if_pos hac] at h
          rw [← Option.some_inj.mp h]
          exact hc.trans hac
        · rw [if_neg hac] at h
          rw [← Option.some_inj.mp h]
          exact hc

lemma listMax_mem {α : Type} [LinearOrder α] :
    ∀ (l : List α) (v : α), listMax l = some v → v ∈ l := by
  intro l
  induction l with
  | nil => intro v h; simp [listMax] at h
  | cons a rest ih =>
    intro v h
    cases hm : listMax rest with
    | none =>
      simp only [listMax, hm] at h
      exact (Option.some_inj.mp h) ▸ List.mem_cons_self a rest
    | some b =>
      simp only [listMax, hm] at h
      rcases max_choice a b with hc | hc <;> rw [← Option.some_inj.mp h, hc]
      · exact List.mem_cons_self a rest
      · exact List.mem_cons_of_mem a (ih b hm)

lemma listMax_const {α : Type} [LinearOrder α] (l : List α) (v : α)
    (hl : l ≠ []) (hc : ∀ x ∈ l, x = v) : listMax l = some v := by
  induction l with
  | nil => exact absurd rfl hl
  | cons a rest ih =>
    have ha : a = v := hc a (List.mem_cons_self a rest)
    cases hm : listMax rest with
    | none => simp only [listMax, hm, ha]
    | some b =>
      have hb : b = v := hc b (List.mem_cons_of_mem a (listMax_mem rest b hm))
      simp only [listMax, hm, ha, hb, max_self]

/-! Helper lemmas about the intervention join. -/

lemma mem_mergeQuarantine {df : List ARow} {q : List QRow} {e : QXRow} :
    e ∈ mergeQuarantine df q ↔
      ∃ qr ∈ q, ∃ r ∈ df, r.group = qr.group ∧
        e = ⟨qr.group, qr.lockdownDate, qr.lockdownType,
          daysBetween r.dateOfN qr.lockdownDate⟩ := by
  unfold mergeQuarantine
  constructor
  · intro h
    rcases List.mem_flatMap.mp h with ⟨qr, hqr, hmem⟩
    rcases List.mem_map.mp hmem with ⟨r, hr, heq⟩
    have hrg := List.mem_filter.mp hr
    exact ⟨qr, hqr, r, hrg.1, of_decide_eq_true hrg.2, heq.symm⟩
  · rintro ⟨qr, hqr, r, hr, hg, rfl⟩
    exact List.mem_flatMap.mpr
      ⟨qr, hqr, List.mem_map.mpr ⟨r, List.mem_filter.mpr ⟨hr, decide_eq_true hg⟩, rfl⟩⟩

lemma mem_qxPos {df : List ARow} {q : List QRow} {e : QXRow} :
    e ∈ qxPos df q ↔ e ∈ mergeQuarantine df q ∧ 0 < e.lockdownX := by
  unfold qxPos
  rw [List.mem_filter]
  simp

lemma retainedEvent_spec {df : List ARow} {q : List QRow} {g : ℕ} {e : QXRow}
    (h : retainedEvent df q g = some e) :
    e ∈ qxPos df q ∧ e.group = g ∧
      ∀ e' ∈ qxPos df q, e'.group = g → e.lockdownX ≤ e'.lockdownX := by
  unfold retainedEvent at h
  have hmem := firstMinBy_mem _ _ _ h
  have hflt := List.mem_filter.mp hmem
  refine ⟨hflt.1, of_decide_eq_true hflt.2, ?_⟩
  intro e' he' hg'
  exact firstMinBy_le _ _ _ h e' (List.mem_filter.mpr ⟨he', decide_eq_true hg'⟩)

lemma retainedEvent_isSome {df : List ARow} {q : List QRow} {g : ℕ}
    (h : ∃ e ∈ qxPos df q, e.group = g) : ∃ e, retainedEvent df q g = some e := by
  rcases h with ⟨e, he, hg⟩
  unfold retainedEvent
  exact firstMinBy_isSome _ _
    (List.ne_nil_of_mem (List.mem_filter.mpr ⟨he, decide_eq_true hg⟩))

lemma slopeSym_fst_none (b : Option ℚ) (c : Option ℤ) :
    slopeSym none b c = .nan := by
  cases b <;> cases c <;> rfl

lemma slopeSym_none_none (c : Option ℤ) : slopeSym none none c = .nan := by
  cases c <;> rfl

lemma mem_joinedOriginal {df : List ARow} {q : List QRow} {r' : JRow} :
    r' ∈ joinedOriginal df q ↔ ∃ r ∈ df, r' = joinRow df q r := by
  unfold joinedOriginal
  rw [List.mem_map]
  constructor
  · rintro ⟨r, hr, rfl⟩; exact ⟨r, hr, rfl⟩
  · rintro ⟨r, hr, rfl⟩; exact ⟨r, hr, rfl⟩

lemma joinRow_slope_local (df : List ARow) (q : List QRow) (r : ARow) :
    (joinRow df q r).slope =
      slopeSym (joinRow df q r).lockdownY (joinRow df q r).intercept
        (joinRow df q r).lockdownX := rfl

lemma synthRow_slope_local (df : List ARow) (q : List QRow) (g : ℕ) :
    (synthRow df q g).slope =
      slopeSym (synthRow df q g).lockdownY (synthRow df q g).intercept
        (synthRow df q g).lockdownX := by
  have : (synthRow df q g).lockdownY = none := rfl
  rw [this, slopeSym_fst_none]
  rfl

lemma mem_synthRows {df : List ARow} {q : List QRow} {r' : JRow} :
    r' ∈ synthRows df q ↔
      ∃ g ∈ sortedGroups (df.map (fun r => r.group)), r' = synthRow df q g := by
  unfold synthRows
  rw [List.mem_map]
  constructor
  · rintro ⟨g, hg, rfl⟩; exact ⟨g, hg, rfl⟩
  · rintro ⟨g, hg, rfl⟩; exact ⟨g, hg, rfl⟩

lemma joinStage_slope_local {df : List ARow} {q : List QRow} :
    ∀ r' ∈ joinStage df q,
      r'.slope = slopeSym r'.lockdownY r'.intercept r'.lockdownX := by
  intro r' hr'
  rcases List.mem_append.mp hr' with h | h
  · rcases mem_joinedOriginal.mp h with ⟨r, _, rfl⟩
    exact joinRow_slope_local df q r
  · rcases mem_synthRows.mp h with ⟨g, _, rfl⟩
    exact synthRow_slope_local df q g

lemma joinStage_lockdownX_pos {df : List ARow} {q : List QRow} :
    ∀ r' ∈ joinStage df q, ∀ v, r'.lockdownX = some v → 0 < v := by
  intro r' hr' v hv
  rcases List.mem_append.mp hr' with h | h
  · rcases mem_joinedOriginal.mp h with ⟨r, _, rfl⟩
    have : (retainedEvent df q r.group).map (fun e => e.lockdownX) = some v := hv
    rcases Option.map_eq_some'.mp this with ⟨e, he, hev⟩
    have := (mem_qxPos.mp (retainedEvent_spec he).1).2
    omega
  · rcases mem_synthRows.mp h with ⟨g, _, rfl⟩
    have hv' : listMax
        (((joinedOriginal df q).filter (fun r => decide (r.group = g))).filterMap
          (fun r => r.lockdownX)) = some v := hv
    have hvmem := listMax_mem _ _ hv'
    rcases List.mem_filterMap.mp hvmem with ⟨r'', hr'', hx⟩
    have hr''o := (List.mem_filter.mp hr'').1
    rcases mem_joinedOriginal.mp hr''o with ⟨r, _, rfl⟩
    have : (retainedEvent df q r.group).map (fun e => e.lockdownX) = some v := hx
    rcases Option.map_eq_some'.mp this with ⟨e, he, hev⟩
    have := (mem_qxPos.mp (retainedEvent_spec he).1).2
    omega

lemma inXDomain_eq_true_iff (lo hi : ℤ) (r : JRow) :
    inXDomain lo hi r = true ↔ ∃ v, r.x = some v ∧ lo ≤ v ∧ v ≤ hi := by
  unfold inXDomain
  cases hx : r.x with
  | none => simp
  | some v => simp

lemma inYDomain_eq_true_iff (lo hi : ℚ) (r : JRow) :
    inYDomain lo hi r = true ↔ ∃ v, r.y = some v ∧ lo ≤ v ∧ v ≤ hi := by
  unfold inYDomain
  cases hy : r.y with
  | none => simp
  | some v => simp

/-- C8: the domain clip retains exactly the rows whose `x` (respectively `y`)
lies within the configured closed interval; it is idempotent (clipping twice
with the same bounds equals clipping once); and the empty table is a valid
input and output of the clip (no error). -/
theorem covid_c8_clip_exact_and_idempotent :
    ∀ (lo hi : ℤ) (lo' hi' : ℚ) (l : List JRow),
      clipX lo hi (clipX lo hi l) = clipX lo hi l ∧
      clipY lo' hi' (clipY lo' hi' l) = clipY lo' hi' l ∧
      (∀ r : JRow, r ∈ clipX lo hi l ↔ r ∈ l ∧ ∃ v, r.x = some v ∧ lo ≤ v ∧ v ≤ hi) ∧
      (∀ r : JRow, r ∈ clipY lo' hi' l ↔ r ∈ l ∧ ∃ v, r.y = some v ∧ lo' ≤ v ∧ v ≤ hi') ∧
      clipX lo hi ([] : List JRow) = [] ∧ clipY lo' hi' ([] : List JRow) = [] := by
  intro lo hi lo' hi' l
  refine ⟨?_, ?_, ?_, ?_, rfl, rfl⟩
  · unfold clipX
    rw [List.filter_filter]
    simp only [Bool.and_self]
  · unfold clipY
    rw [List.filter_filter]
    simp only [Bool.and_self]
  · intro r
    unfold clipX
    rw [List.mem_filter, inXDomain_eq_true_iff]
  · intro r
    unfold clipY
    rw [List.mem_filter, inYDomain_eq_true_iff]

/-- C9 (amended): the intervention join appends exactly one synthetic row per
distinct group, so the join stage's output is never shorter than the join
stage's input; the full pipeline, however, may drop rows (top-K filter,
threshold alignment, domain clipping), so the final output can be shorter than
the original input. This theorem is the surviving part of the claim. -/
theorem covid_c9_join_never_shrinks :
    ∀ (df : List ARow) (q : List QRow),
      (joinStage df q).length = df.length + ((df.map (fun r => r.group)).dedup).length ∧
      df.length ≤ (joinStage df q).length := by
  intro df q
  have hlen : (joinStage df q).length =
      df.length + ((df.map (fun r => r.group)).dedup).length := by
    unfold joinStage joinedOriginal synthRows sortedGroups
    rw [List.length_append, List.length_map, List.length_map,
      (List.perm_insertionSort _ _).length_eq]
  exact ⟨hlen, by omega⟩

/-- Concrete input refuting C9 as stated: a one-row table. -/
def c9rows : List Obs := [⟨0, 0, 5⟩]

/-- C9 counterexample: with a configured y-domain of `[100, 200]` the pipeline
drops its only row (`y = 5`), so the output row count `0` is strictly smaller
than the input row count `1`, refuting "output row count is greater than or
equal to the input row count for every input". -/
theorem covid_c9_cex :
    ¬ c9rows.length ≤ (preprocess true none 1 none none (some (100, 200)) c9rows).length := by
  decide

/-- C10: every synthetic row appended by the intervention join carries a null
`y` (and null `date`, `date_of_N`, `lockdown_date`, `intercept`, `lockdown_y`,
NaN slope — only the group id, `lockdown_x`, `lockdown_type` and the
overridden `x` are populated), therefore a configured y-domain filter removes
every synthetic row: clipping the joined table on `y` equals clipping only its
original part, and every row surviving the full pipeline with a configured
y-domain has a non-null `y`. -/
theorem covid_c10_synth_rows_clipped :
    (∀ (df : List ARow) (q : List QRow), ∀ r ∈ synthRows df q,
      r.y = none ∧ r.date = none ∧ r.dateOfN = none ∧ r.lockdownDate = none ∧
      r.intercept = none ∧ r.lockdownY = none ∧ r.slope = SlopeSym.nan) ∧
    (∀ (df : List ARow) (q : List QRow) (lo hi : ℚ),
      clipY lo hi (joinStage df q) = clipY lo hi (joinedOriginal df q)) ∧
    (∀ (cum : Bool) (topk : Option ℕ) (th : ℚ) (qr : List QRow)
      (xdom : Option (ℤ × ℤ)) (lo hi : ℚ) (rows : List Obs),
      ∀ r ∈ preprocess cum topk th (some qr) xdom (some (lo, hi)) rows,
        ∃ v, r.y = some v) := by
  refine ⟨?_, ?_, ?_⟩
  · intro df q r hr
    rcases mem_synthRows.mp hr with ⟨g, _, rfl⟩
    exact ⟨rfl, rfl, rfl, rfl, rfl, rfl, rfl⟩
  · intro df q lo hi
    unfold joinStage clipY
    rw [List.filter_append]
    have hnil : (synthRows df q).filter (inYDomain lo hi) = [] := by
      rw [List.filter_eq_nil_iff]
      intro r hr
      rcases mem_synthRows.mp hr with ⟨g, _, rfl⟩
      simp [inYDomain, synthRow]
    rw [hnil, List.append_nil]
  · intro cum topk th qr xdom lo hi rows r hr
    unfold preprocess at hr
    have hr' := List.mem_filter.mp hr
    rcases (inYDomain_eq_true_iff lo hi r).mp hr'.2 with ⟨v, hv, _⟩
    exact ⟨v, hv⟩

/-- C2: after the intervention join each group retains at most one intervention
event, namely one achieving the minimum positive `lockdown_x` among the group's
qualifying events, even if multiple qualifying events exist in the input.
Part (i): every original row of the group carries the fields of the single
retained event (an `Option`, hence at most one). Part (ii): a retained event
belongs to the group, has positive offset, comes from an input intervention
record, and minimises the offset over all qualifying records. Part (iii): if a
qualifying record exists, an event is retained. -/
theorem covid_c2_min_positive_event :
    ∀ (df : List ARow) (q : List QRow) (g : ℕ) (dN : ℤ),
      (∀ r ∈ df, r.group = g → r.dateOfN = dN) →
      (∃ r ∈ df, r.group = g) →
      (∀ r ∈ joinedOriginal df q, r.group = g →
        r.lockdownX = (retainedEvent df q g).map (fun e => e.lockdownX) ∧
        r.lockdownType = (retainedEvent df q g).map (fun e => e.lockdownType)) ∧
      (∀ e, retainedEvent df q g = some e →
        e.group = g ∧ 0 < e.lockdownX ∧
        (∃ qr ∈ q, qr.group = g ∧ e.lockdownX = daysBetween dN qr.lockdownDate) ∧
        (∀ qr ∈ q, qr.group = g → 0 < daysBetween dN qr.lockdownDate →
          e.lockdownX ≤ daysBetween dN qr.lockdownDate)) ∧
      ((∃ qr ∈ q, qr.group = g ∧ 0 < daysBetween dN qr.lockdownDate) →
        ∃ e, retainedEvent df q g = some e) := by
  intro df q g dN hcons hrow
  rcases hrow with ⟨r0, hr0, hr0g⟩
  have hr0N : r0.dateOfN = dN := hcons r0 hr0 hr0g
  have hbuild : ∀ qr ∈ q, qr.group = g → 0 < daysBetween dN qr.lockdownDate →
      (⟨qr.group, qr.lockdownDate, qr.lockdownType,
        daysBetween dN qr.lockdownDate⟩ : QXRow) ∈ qxPos df q := by
    intro qr hqr hqrg hqrpos
    refine mem_qxPos.mpr ⟨?_, hqrpos⟩
    refine mem_mergeQuarantine.mpr ⟨qr, hqr, r0, hr0, ?_, ?_⟩
    · rw [hr0g, hqrg]
    · rw [hr0N]
  refine ⟨?_, ?_, ?_⟩
  · intro r' hr' hg'
    rcases mem_joinedOriginal.mp hr' with ⟨r, _, rfl⟩
    have : r.group = g := hg'
    rw [joinRow]
    constructor <;> simp only [this]
  · intro e he
    rcases retainedEvent_spec he with ⟨heq, hegrp, hmin⟩
    rcases mem_qxPos.mp heq with ⟨hemerge, hepos⟩
    rcases mem_mergeQuarantine.mp hemerge with ⟨qr, hqr, r, hr, hrg, rfl⟩
    have hqrg : qr.group = g := hegrp
    have hrN : r.dateOfN = dN := hcons r hr (hrg.trans hqrg)
    refine ⟨hegrp, hepos, ⟨qr, hqr, hqrg, by rw [hrN]⟩, ?_⟩
    intro qr' hqr' hqrg' hpos'
    have := hmin _ (hbuild qr' hqr' hqrg' hpos') hqrg'
    exact this
  · rintro ⟨qr, hqr, hqrg, hpos⟩
    exact retainedEvent_isSome ⟨_, hbuild qr hqr hqrg hpos, hqrg⟩

/-- Concrete tables for the C2 witness: group `0` with two qualifying events,
at offsets `5` and `1`. -/
def c2df : List ARow := [⟨0, 10, 1, 10, 0⟩, ⟨0, 12, 3, 10, 2⟩]

def c2q : List QRow := [⟨0, 15, 1⟩, ⟨0, 11, 2⟩]

/-- C2 witness: the hypotheses of the theorem are satisfiable — on `c2df`,
`c2q` the event retained for group `0` is the one at the minimal positive
offset `1`, and its offset is positive. -/
theorem covid_c2_min_positive_event_witness :
    retainedEvent c2df c2q 0 = some ⟨0, 11, 2, 1⟩ ∧
      (0 : ℤ) < (⟨0, 11, 2, 1⟩ : QXRow).lockdownX :=
  ⟨by decide,
    ((covid_c2_min_positive_event c2df c2q 0 10 (by decide)
      ⟨⟨0, 10, 1, 10, 0⟩, by decide, rfl⟩).2.1 ⟨0, 11, 2, 1⟩ (by decide)).2.1⟩

/-- C3: in the joined output every row with a non-null `lockdown_x` has
`lockdown_x > 0`, and a group all of whose intervention offsets are
non-positive (intervention on or before the anchor) has null lockdown fields
(`lockdown_x`, `lockdown_type`, `lockdown_y`, and NaN `lockdown_slope`) on all
of its rows. -/
theorem covid_c3_positive_or_null :
    ∀ (df : List ARow) (q : List QRow),
      (∀ r ∈ joinStage df q, ∀ v, r.lockdownX = some v → 0 < v) ∧
      (∀ g : ℕ,
        (∀ qr ∈ q, qr.group = g → ∀ r ∈ df, r.group = g →
          daysBetween r.dateOfN qr.lockdownDate ≤ 0) →
        ∀ r ∈ joinStage df q, r.group = g →
          r.lockdownX = none ∧ r.lockdownType = none ∧ r.lockdownY = none ∧
          r.slope = SlopeSym.nan) := by
  intro df q
  refine ⟨fun r hr => joinStage_lockdownX_pos r hr, ?_⟩
  intro g hle
  have hnone : retainedEvent df q g = none := by
    cases he : retainedEvent df q g with
    | none => rfl
    | some e =>
      exfalso
      rcases retainedEvent_spec he with ⟨heq, hegrp, _⟩
      rcases mem_qxPos.mp heq with ⟨hemerge, hepos⟩
      rcases mem_mergeQuarantine.mp hemerge with ⟨qr, hqr, r, hr, hrg, rfl⟩
      have hqrg : qr.group = g := hegrp
      have := hle qr hqr hqrg r hr (hrg.trans hqrg)
      simp only [QXRow.lockdownX] at hepos
      omega
  have horig : ∀ r ∈ joinedOriginal df q, r.group = g →
      r.lockdownX = none ∧ r.lockdownType = none ∧ r.lockdownY = none ∧
        r.slope = SlopeSym.nan := by
    intro r' hr' hg'
    rcases mem_joinedOriginal.mp hr' with ⟨r, _, rfl⟩
    have hrg : r.group = g := hg'
    have hly : lockdownYOf df q r.group = none := by
      rw [lockdownYOf, hrg, hnone]
    refine ⟨?_, ?_, hly, ?_⟩
    · show (retainedEvent df q r.group).map _ = none
      rw [hrg, hnone, Option.map_none']
    · show (retainedEvent df q r.group).map _ = none
      rw [hrg, hnone, Option.map_none']
    · show slopeSym (lockdownYOf df q r.group) _ _ = SlopeSym.nan
      rw [hly, slopeSym_fst_none]
  intro r' hr' hg'
  rcases List.mem_append.mp hr' with h | h
  · exact horig r' h hg'
  · rcases mem_synthRows.mp h with ⟨g', _, rfl⟩
    have hg'' : g' = g := hg'
    subst hg''
    have hfm : ((joinedOriginal df q).filter
        (fun r => decide (r.group = g'))).filterMap (fun r => r.lockdownX) = [] := by
      rw [List.filterMap_eq_nil_iff]
      intro r hr
      have hmem := List.mem_filter.mp hr
      exact (horig r hmem.1 (of_decide_eq_true hmem.2)).1
    have hft : ((joinedOriginal df q).filter
        (fun r => decide (r.group = g'))).filterMap (fun r => r.lockdownType) = [] := by
      rw [List.filterMap_eq_nil_iff]
      intro r hr
      have hmem := List.mem_filter.mp hr
      exact (horig r hmem.1 (of_decide_eq_true hmem.2)).2.1
    refine ⟨?_, ?_, rfl, rfl⟩
    · show listMax (((joinedOriginal df q).filter
        (fun r => decide (r.group = g'))).filterMap (fun r => r.lockdownX)) = none
      rw [hfm]; simp [listMax]
    · show listMax (((joinedOriginal df q).filter
        (fun r => decide (r.group = g'))).filterMap (fun r => r.lockdownType)) = none
      rw [hft]; simp [listMax]

/-- Concrete tables for the C3 witness: the single intervention of group `0`
is one day before the anchor. -/
def c3df : List ARow := [⟨0, 10, 1, 10, 0⟩]

def c3q : List QRow := [⟨0, 9, 7⟩]

/-- C3 witness: on `c3df`, `c3q` (whose only intervention offset is `-1 ≤ 0`)
the original row of group `0` has null lockdown fields. -/
theorem covid_c3_positive_or_null_witness :
    (joinRow c3df c3q ⟨0, 10, 1, 10, 0⟩).lockdownX = none ∧
    (joinRow c3df c3q ⟨0, 10, 1, 10, 0⟩).lockdownType = none ∧
    (joinRow c3df c3q ⟨0, 10, 1, 10, 0⟩).lockdownY = none ∧
    (joinRow c3df c3q ⟨0, 10, 1, 10, 0⟩).slope = SlopeSym.nan :=
  (covid_c3_positive_or_null c3df c3q).2 0 (by decide)
    (joinRow c3df c3q ⟨0, 10, 1, 10, 0⟩)
    (List.mem_append.mpr (Or.inl (mem_joinedOriginal.mpr ⟨⟨0, 10, 1, 10, 0⟩, by decide, rfl⟩)))
    rfl

/-- C4 (amended): the append of line 118 replaces nothing (the output is the
joined original rows followed by the synthetic rows) and appends exactly one
synthetic row per distinct group of the dataframe — including groups without a
qualifying event; a synthetic row carries only the group id, `lockdown_x`,
`lockdown_type` and `x` overridden to `lockdown_x` (its other fields are
null, so it is not a copy of the group's maximum-x row); for every group with
a retained event the synthetic row gives an exact-match row whose `x` equals
the group's `lockdown_x`. -/
theorem covid_c4_synthetic_rows :
    ∀ (df : List ARow) (q : List QRow),
      (joinStage df q).take df.length = joinedOriginal df q ∧
      (joinStage df q).drop df.length = synthRows df q ∧
      (synthRows df q).length = ((df.map (fun r => r.group)).dedup).length ∧
      (∀ g e, retainedEvent df q g = some e →
        synthRow df q g ∈ joinStage df q ∧ (synthRow df q g).group = g ∧
        (synthRow df q g).x = some e.lockdownX ∧
        (synthRow df q g).lockdownX = some e.lockdownX ∧
        (synthRow df q g).y = none) := by
  intro df q
  have hlen : (joinedOriginal df q).length = df.length := List.length_map df _
  refine ⟨?_, ?_, ?_, ?_⟩
  · show (joinedOriginal df q ++ synthRows df q).take df.length = joinedOriginal df q
    rw [← hlen, List.take_left]
  · show (joinedOriginal df q ++ synthRows df q).drop df.length = synthRows df q
    rw [← hlen, List.drop_left]
  · unfold synthRows sortedGroups
    rw [List.length_map, (List.perm_insertionSort _ _).length_eq]
  · intro g e he
    rcases retainedEvent_spec he with ⟨heq, hegrp, _⟩
    rcases mem_qxPos.mp heq with ⟨hemerge, _⟩
    rcases mem_mergeQuarantine.mp hemerge with ⟨qr, _, r, hr, hrg, rfl⟩
    have hrgg : r.group = g := hrg.trans hegrp
    have hgmem : g ∈ sortedGroups (df.map (fun r => r.group)) := by
      unfold sortedGroups
      rw [List.mem_insertionSort, List.mem_dedup]
      exact List.mem_map.mpr ⟨r, hr, hrgg⟩
    have hself : joinRow df q r ∈ (joinedOriginal df q).filter
        (fun r' => decide (r'.group = g)) := by
      refine List.mem_filter.mpr ⟨mem_joinedOriginal.mpr ⟨r, hr, rfl⟩, ?_⟩
      exact decide_eq_true hrgg
    have hlxmem : (⟨qr.group, qr.lockdownDate, qr.lockdownType,
        daysBetween r.dateOfN qr.lockdownDate⟩ : QXRow).lockdownX ∈
        (((joinedOriginal df q).filter (fun r' => decide (r'.group = g))).filterMap
          (fun r' => r'.lockdownX)) := by
      refine List.mem_filterMap.mpr ⟨joinRow df q r, hself, ?_⟩
      show (retainedEvent df q r.group).map (fun e => e.lockdownX) = _
      rw [hrgg, he, Option.map_some']
    have hconst : ∀ v ∈ (((joinedOriginal df q).filter
        (fun r' => decide (r'.group = g))).filterMap (fun r' => r'.lockdownX)),
        v = (⟨qr.group, qr.lockdownDate, qr.lockdownType,
          daysBetween r.dateOfN qr.lockdownDate⟩ : QXRow).lockdownX := by
      intro v hv
      rcases List.mem_filterMap.mp hv with ⟨r', hr', hv'⟩
      have hmem := List.mem_filter.mp hr'
      rcases mem_joinedOriginal.mp hmem.1 with ⟨r1, _, rfl⟩
      have hr1g : r1.group = g := of_decide_eq_true hmem.2
      have : (retainedEvent df q r1.group).map (fun e => e.lockdownX) = some v := hv'
      rw [hr1g, he, Option.map_some'] at this
      exact (Option.some_inj.mp this).symm
    have hlx : listMax (((joinedOriginal df q).filter
        (fun r' => decide (r'.group = g))).filterMap (fun r' => r'.lockdownX)) =
        some (⟨qr.group, qr.lockdownDate, qr.lockdownType,
          daysBetween r.dateOfN qr.lockdownDate⟩ : QXRow).lockdownX :=
      listMax_const _ _ (List.ne_nil_of_mem hlxmem) hconst
    exact ⟨List.mem_append.mpr (Or.inr (mem_synthRows.mpr ⟨g, hgmem, rfl⟩)),
      rfl, hlx, hlx, rfl⟩

/-- Concrete tables refuting C4 as stated: group `0` has a qualifying event,
group `1` has none. -/
def c4df : List ARow := [⟨0, 10, 1, 10, 0⟩, ⟨1, 20, 2, 20, 0⟩]

def c4q : List QRow := [⟨0, 11, 7⟩]

/-- C4 counterexample: on `c4df`, `c4q` only group `0` has a qualifying event,
yet two synthetic rows are appended (output has `4 = 2 + 2` rows, one appended
row per distinct group, not per group-with-event), and the appended row of
group `1` has null `x` and null `y` — in particular no appended row is a copy
of its group's maximum-x row, whose `y` is non-null. -/
theorem covid_c4_cex :
    (joinStage c4df c4q).length = 4 ∧
    retainedEvent c4df c4q 0 ≠ none ∧
    retainedEvent c4df c4q 1 = none ∧
    synthRow c4df c4q 1 ∈ joinStage c4df c4q ∧
    (synthRow c4df c4q 1).x = none ∧
    (synthRow c4df c4q 1).y = none ∧
    (synthRow c4df c4q 0).y = none := by
  decide

/-- C4 witness: the hypothesis of the exact-match part is satisfiable — on
`c4df`, `c4q` the synthetic row of group `0` sits in the output with `x`
equal to the group's `lockdown_x`. -/
theorem covid_c4_synthetic_rows_witness :
    synthRow c4df c4q 0 ∈ joinStage c4df c4q ∧ (synthRow c4df c4q 0).group = 0 ∧
    (synthRow c4df c4q 0).x = some (⟨0, 11, 7, 1⟩ : QXRow).lockdownX ∧
    (synthRow c4df c4q 0).lockdownX = some (⟨0, 11, 7, 1⟩ : QXRow).lockdownX ∧
    (synthRow c4df c4q 0).y = none :=
  (covid_c4_synthetic_rows c4df c4q).2.2.2 0 ⟨0, 11, 7, 1⟩ (by decide)

/-- C7 (amended): the slope computation of line 108 is a total function of the
row's own `lockdown_y`, `intercept` and `lockdown_x` (so a degenerate group
affects only its own rows and nothing is raised), and — given the positive
`lockdown_x` guaranteed by the join — it yields the NaN missing value exactly
when the ratio `lockdown_y / intercept` is negative or `intercept = 0` with
`lockdown_y ≤ 0`; `intercept ≤ 0` alone does not imply NaN: with both values
negative the slope is finite, and with `intercept = 0 < lockdown_y` it is
`+inf`; `lockdown_x = 0` cannot occur. -/
theorem covid_c7_nan_characterization :
    (∀ (df : List ARow) (q : List QRow), ∀ r ∈ joinStage df q,
      r.slope = slopeSym r.lockdownY r.intercept r.lockdownX) ∧
    (∀ (ly ic : ℚ) (lx : ℤ), 0 < lx →
      (slopeSym (some ly) (some ic) (some lx) = SlopeSym.nan ↔
        (ly / ic < 0 ∨ (ic = 0 ∧ ly ≤ 0)))) := by
  constructor
  · intro df q r hr
    exact joinStage_slope_local r hr
  · intro ly ic lx hlx
    simp only [slopeSym]
    split_ifs with h1 h2 h3 h4 h5 h6 h7 h8 <;> simp_all

/-- C7 witness: the hypothesis `0 < lockdown_x` of the characterization is
satisfiable — at `lockdown_y = 1`, `intercept = -1`, `lockdown_x = 1` the
characterization is obtained (and indeed decides to NaN, since `1 / -1 < 0`). -/
theorem covid_c7_nan_characterization_witness :
    slopeSym (some 1) (some (-1)) (some 1) = SlopeSym.nan ↔
      ((1 : ℚ) / (-1) < 0 ∨ ((-1 : ℚ) = 0 ∧ (1 : ℚ) ≤ 0)) :=
  covid_c7_nan_characterization.2 1 (-1) 1 (by decide)

/-- Concrete tables refuting C7 as stated: group `0` has `intercept = -2` and
`lockdown_y = -4`, both non-positive. -/
def c7df : List ARow := [⟨0, 10, -2, 10, 0⟩, ⟨0, 11, -4, 10, 1⟩]

def c7q : List QRow := [⟨0, 11, 7⟩]

/-- Output row of `joinStage c7df c7q` used by the C7 counterexample. -/
def c7row : JRow := joinRow c7df c7q ⟨0, 10, -2, 10, 0⟩

/-- C7 counterexample: the claim says the slope is a null/NaN missing value
whenever `intercept ≤ 0` (or `lockdown_y ≤ 0`); but on `c7df`, `c7q` the row
of group `0` has `intercept = -2 ≤ 0` and `lockdown_y = -4 ≤ 0` while its
slope is the finite value `exp (log 2 / 1) = 2` (the IEEE ratio `-4 / -2 = 2`
is positive, so `np.log` does not produce NaN), not a missing value. -/
theorem covid_c7_cex :
    c7row ∈ joinStage c7df c7q ∧ c7row.intercept = some (-2) ∧
    (-2 : ℚ) ≤ 0 ∧ c7row.lockdownY = some (-4) ∧ (-4 : ℚ) ≤ 0 ∧
    c7row.slope = SlopeSym.val 2 1 ∧ c7row.slope ≠ SlopeSym.nan := by
  have hs : c7row.slope = SlopeSym.val 2 1 := by
    have h : c7row.slope = slopeSym (some (-4)) (some (-2)) (some 1) := rfl
    rw [h]
    norm_num [slopeSym]
  refine ⟨?_, by decide, by decide, by decide, by decide, hs, ?_⟩
  · exact List.mem_append.mpr
      (Or.inl (mem_joinedOriginal.mpr ⟨⟨0, 10, -2, 10, 0⟩, by decide, rfl⟩))
  · rw [hs]
    decide

/-- C6 (amended): if the measure is flagged cumulative, `y` is a copy of the
raw measure; otherwise `y` is the per-group running sum in dataframe row
order, which agrees with the spec's "running sum within each group ordered by
date" exactly when each group's rows appear in date-ascending order in the
input (as they do in the repository's date-indexed source files). -/
theorem covid_c6_running_sum (rows : List Obs) :
    (normalize true rows = rows.map (fun r => ⟨r.group, r.date, r.raw⟩)) ∧
    ((∀ j, j < rows.length → ∀ i, i < j →
        (rows.getD i ⟨0, 0, 0⟩).group = (rows.getD j ⟨0, 0, 0⟩).group →
        (rows.getD i ⟨0, 0, 0⟩).date < (rows.getD j ⟨0, 0, 0⟩).date) →
      normalize false rows = specNormalize false rows) := by
  constructor
  · rfl
  · intro hsorted
    unfold normalize specNormalize
    rw [if_neg Bool.false_ne_true, if_neg Bool.false_ne_true]
    apply List.map_congr_left
    intro i hi
    have hilen : i < rows.length := List.mem_range.mp hi
    dsimp only
    congr 1
    congr 1
    congr 1
    apply List.filter_congr
    intro j hj
    have hjlen : j < rows.length := List.mem_range.mp hj
    rw [Bool.eq_iff_iff]
    simp only [Bool.and_eq_true, Bool.or_eq_true, decide_eq_true_eq]
    constructor
    · rintro ⟨hji, hg⟩
      refine ⟨hg, ?_⟩
      rcases lt_or_eq_of_le hji with hji' | hji'
      · exact Or.inl (hsorted i hilen j hji' hg)
      · subst hji'
        exact Or.inr ⟨rfl, le_refl _⟩
    · rintro ⟨hg, hd | ⟨hde, hji⟩⟩
      · refine ⟨?_, hg⟩
        by_contra hcon
        have hij : i < j := by omega
        have hdij := hsorted j hjlen i hij hg.symm
        omega
      · exact ⟨hji, hg⟩

/-- Concrete date-sorted input for the C6 witness. -/
def c6w : List Obs := [⟨0, 1, 2⟩, ⟨0, 2, 3⟩]

/-- C6 witness: the sortedness hypothesis is satisfiable — on the date-sorted
input `c6w` the source's row-order running sum coincides with the
date-ordered running sum of the spec. -/
theorem covid_c6_running_sum_witness :
    normalize false c6w = specNormalize false c6w :=
  (covid_c6_running_sum c6w).2 (by decide)

/-- Concrete input refuting C6 as stated: one group whose two rows appear in
descending date order. -/
def c6rows : List Obs := [⟨0, 2, 1⟩, ⟨0, 1, 10⟩]

/-- C6 counterexample: on `c6rows` the source computes the cumulative sums
`[1, 11]` in input row order, while the running sum ordered by date is
`[11, 10]`; the normalizer does not sort by date before `cumsum`, so the
claim's "running sum within each group ordered by date" fails. -/
theorem covid_c6_cex : normalize false c6rows ≠ specNormalize false c6rows := by
  have h1 : normalize false c6rows = [⟨0, 2, 1⟩, ⟨0, 1, 11⟩] := by
    norm_num [normalize, c6rows, List.range_succ]
  have h2 : specNormalize false c6rows = [⟨0, 2, 11⟩, ⟨0, 1, 10⟩] := by
    norm_num [specNormalize, c6rows, List.range_succ]
  rw [h1, h2]
  decide

/-- C1 (amended): for every row of the joined output whose `lockdown_slope` is
a finite value (this excludes the NaN missing value and the infinities that a
zero intercept produces), the exponential-growth identity
`lockdown_slope ^ lockdown_x * intercept = lockdown_y` holds exactly in
idealized real arithmetic. -/
theorem covid_c1_slope_equation :
    ∀ (df : List ARow) (q : List QRow), ∀ r ∈ joinStage df q,
      ∀ (s : ℝ) (lx : ℤ) (ic ly : ℚ),
        SlopeSym.finVal r.slope = some s →
        r.lockdownX = some lx → r.intercept = some ic → r.lockdownY = some ly →
        s ^ lx.toNat * (ic : ℝ) = (ly : ℝ) := by
  intro df q r hr s lx ic ly hs hlx hic hly
  have hpos : 0 < lx := joinStage_lockdownX_pos r hr lx hlx
  have hloc := joinStage_slope_local r hr
  rw [hlx, hic, hly] at hloc
  rw [hloc] at hs
  simp only [slopeSym] at hs
  split_ifs at hs with h1 h2 h3 h4 h5 h6 h7 h8 h9
  · simp [SlopeSym.finVal] at hs
  · exact absurd hpos.le h3
  · simp [SlopeSym.finVal] at hs
  · simp [SlopeSym.finVal] at hs
  · -- ratio `= 0` branch: the slope is `exp (-inf) = 0` and `lockdown_y = 0`
    have hly0 : ly = 0 := by
      rcases div_eq_zero_iff.mp h5 with h | h
      · exact h
      · exact absurd h h1
    have hs0 : s = 0 := by
      have : (some (0 : ℝ)) = some s := hs
      exact (Option.some_inj.mp this).symm
    have hn : lx.toNat ≠ 0 := by omega
    rw [hs0, hly0, zero_pow hn]
    simp
  · exact absurd hpos.le h6
  · exact absurd h7 (by omega)
  · exact absurd h7 (by omega)
  · exact absurd h7 (by omega)
  · -- the finite branch: `s = exp (log (ly/ic) / lx)`
    have hr0 : 0 < ly / ic := lt_of_le_of_ne (not_lt.mp h4) (Ne.symm h5)
    have hRpos : (0 : ℝ) < ((ly / ic : ℚ) : ℝ) := by exact_mod_cast hr0
    have hsval : s = Real.exp (Real.log ((ly / ic : ℚ) : ℝ) / ((lx : ℤ) : ℝ)) := by
      have : (some (Real.exp (Real.log ((ly / ic : ℚ) : ℝ) / ((lx : ℤ) : ℝ)))) =
          some s := hs
      exact (Option.some_inj.mp this).symm
    have hlx0 : ((lx : ℤ) : ℝ) ≠ 0 := Int.cast_ne_zero.mpr hpos.ne'
    have hcast : ((lx.toNat : ℕ) : ℝ) = ((lx : ℤ) : ℝ) := by
      exact_mod_cast Int.toNat_of_nonneg hpos.le
    have hexp : s ^ lx.toNat = ((ly / ic : ℚ) : ℝ) := by
      rw [hsval, ← Real.exp_nat_mul, hcast, mul_div_cancel₀ _ hlx0,
        Real.exp_log hRpos]
    rw [hexp]
    have hic0 : ((ic : ℚ) : ℝ) ≠ 0 := Rat.cast_ne_zero.mpr h1
    rw [Rat.cast_div, div_mul_cancel₀ _ hic0]

/-- Concrete tables for the C1 witness: group `0` grows from `y = 1` at the
anchor to `y = 2` at the intervention offset `1`. -/
def c1wdf : List ARow := [⟨0, 10, 1, 10, 0⟩, ⟨0, 11, 2, 10, 1⟩]

def c1wq : List QRow := [⟨0, 11, 7⟩]

/-- Output row of `joinStage c1wdf c1wq` used by the C1 witness. -/
def c1wrow : JRow := joinRow c1wdf c1wq ⟨0, 10, 1, 10, 0⟩

/-- C1 witness: the hypotheses of the equation theorem are satisfiable — on
`c1wdf`, `c1wq` the slope of group `0` is the finite `exp (log 2 / 1)` and
the identity instantiates to `exp (log 2 / 1) ^ 1 * 1 = 2`. -/
theorem covid_c1_slope_equation_witness :
    Real.exp (Real.log ((2 : ℚ) : ℝ) / ((1 : ℤ) : ℝ)) ^ (1 : ℤ).toNat *
      ((1 : ℚ) : ℝ) = ((2 : ℚ) : ℝ) := by
  have hs : c1wrow.slope = SlopeSym.val 2 1 := by
    have h : c1wrow.slope = slopeSym (some 2) (some 1) (some 1) := rfl
    rw [h]
    norm_num [slopeSym]
  exact covid_c1_slope_equation c1wdf c1wq c1wrow
    (List.mem_append.mpr
      (Or.inl (mem_joinedOriginal.mpr ⟨⟨0, 10, 1, 10, 0⟩, by decide, rfl⟩)))
    (Real.exp (Real.log ((2 : ℚ) : ℝ) / ((1 : ℤ) : ℝ))) 1 1 2
    (by rw [hs]; rfl) (by decide) (by decide) (by decide)

/-- Concrete tables refuting C1 as stated: group `0` has `intercept = 0`. -/
def c1df : List ARow := [⟨0, 10, 0, 10, 0⟩, ⟨0, 11, 1, 10, 1⟩]

def c1q : List QRow := [⟨0, 11, 7⟩]

/-- Output row of `joinStage c1df c1q` used by the C1 counterexample. -/
def c1row : JRow := joinRow c1df c1q ⟨0, 10, 0, 10, 0⟩

/-- C1 counterexample: on `c1df`, `c1q` the row of group `0` has a non-null
(non-NaN) slope — the IEEE value `exp (log (1 / 0.0)) = +inf` — yet no real
number is the slope's value (`finVal` is `none`), so
`lockdown_slope ^ lockdown_x * intercept` (IEEE: `inf * 0 = NaN`) does not
equal `lockdown_y = 1` within any floating-point tolerance; the claim's "every
group with a defined (non-null) lockdown_slope" therefore fails on the code. -/
theorem covid_c1_cex :
    c1row ∈ joinStage c1df c1q ∧ c1row.slope = SlopeSym.posinf ∧
    c1row.slope ≠ SlopeSym.nan ∧ SlopeSym.finVal c1row.slope = none ∧
    c1row.intercept = some 0 ∧ c1row.lockdownY = some 1 ∧
    c1row.lockdownX = some 1 := by
  refine ⟨?_, by decide, by decide, rfl, by decide, by decide, by decide⟩
  exact List.mem_append.mpr
    (Or.inl (mem_joinedOriginal.mpr ⟨⟨0, 10, 0, 10, 0⟩, by decide, rfl⟩))

/-! Helper lemmas about the top-K filter. -/

lemma mem_sortedGroups {l : List ℕ} {g : ℕ} : g ∈ sortedGroups l ↔ g ∈ l := by
  unfold sortedGroups
  rw [List.mem_insertionSort, List.mem_dedup]

lemma sortedGroups_nodup (l : List ℕ) : (sortedGroups l).Nodup :=
  (List.perm_insertionSort _ _).nodup_iff.mpr (List.nodup_dedup l)

lemma sortedGroups_length (l : List ℕ) : (sortedGroups l).length = l.dedup.length :=
  (List.perm_insertionSort _ _).length_eq

/-- Ranking used by the claim's wording for C5 (spec section 4.1): group `g`
is preferred to `h` when its peak cumulative `y` is strictly larger, or the
peaks tie and `g` occurs first in the input (stable input order). -/
def specPreferred (rows : List NRow) (g h : ℕ) : Prop :=
  maxY rows h < maxY rows g ∨
    (maxY rows g = maxY rows h ∧
      (rows.map (fun r => r.group)).indexOf g < (rows.map (fun r => r.group)).indexOf h)

instance (rows : List NRow) (g h : ℕ) : Decidable (specPreferred rows g h) := by
  unfold specPreferred
  infer_instance

/-- Membership in the claim's top-K (from the spec's words, for comparison
with the source's `nlargest`): `g` is among the top K groups ranked descending
by peak `y` with ties broken by stable input order iff fewer than `K` distinct
groups are preferred to it. -/
def specInTopK (rows : List NRow) (K g : ℕ) : Prop :=
  (((rows.map (fun r => r.group)).dedup).filter
    (fun h => decide (specPreferred rows h g))).length < K

instance (rows : List NRow) (K g : ℕ) : Decidable (specInTopK rows K g) := by
  unfold specInTopK
  infer_instance

/-- Concrete input refuting C5 as stated: group `2` precedes group `1` in the
input and both peak at `y = 5`. -/
def c5rows : List NRow := [⟨2, 0, 5⟩, ⟨1, 1, 5⟩]

/-- C5 counterexample: with `K = 1` on `c5rows` the source retains group `1`
(pandas `groupby` sorts the key-ascending series and `nlargest(keep=first)`
therefore breaks the tie by ascending group key), but the claim's ranking —
ties broken by stable input order — puts group `2` (which occurs first in the
input) in the top 1, not group `1`; a retained group is thus not among the top
K of the claim's ranking. -/
theorem covid_c5_cex :
    ((topKFilter 1 c5rows).map (fun r => r.group) = [1]) ∧
    ¬ specInTopK c5rows 1 1 ∧ specInTopK c5rows 1 2 := by
  decide

/-- C5 (amended): with `top_k_groups = K` the output contains exactly
`min K (number of distinct groups)` distinct groups, and every retained group
is ranked at least as high as every dropped group under the ranking the code
actually uses: descending peak cumulative `y` with ties broken by **ascending
group key** (not stable input order). -/
theorem covid_c5_top_k :
    ∀ (K : ℕ) (rows : List NRow),
      (((topKFilter K rows).map (fun r => r.group)).dedup.length =
        min K ((rows.map (fun r => r.group)).dedup.length)) ∧
      (∀ g h : ℕ,
        (∃ r ∈ topKFilter K rows, r.group = g) →
        (∃ r ∈ rows, r.group = h) →
        (¬ ∃ r ∈ topKFilter K rows, r.group = h) →
        maxY rows h < maxY rows g ∨ (maxY rows h = maxY rows g ∧ g < h)) := by
  intro K rows
  have hfil : topKFilter K rows = rows.filter (fun r => decide (r.group ∈
      ((List.insertionSort entryLE ((sortedGroups (rows.map (fun r => r.group))).map
        (fun g => (g, maxY rows g)))).take K).map (fun e => e.1))) := rfl
  set G := sortedGroups (rows.map (fun r => r.group)) with hG
  set entries := G.map (fun g => (g, maxY rows g)) with hE
  set S := List.insertionSort entryLE entries with hS
  set top := (S.take K).map (fun e => e.1) with hTop
  have hSperm : List.Perm S entries := List.perm_insertionSort _ _
  have hSsorted : List.Sorted entryLE S := List.sorted_insertionSort _ _
  have hkeys : entries.map (fun e => e.1) = G := by
    rw [hE, List.map_map]
    have hcomp : ((fun e : ℕ × ℚ => e.1) ∘ (fun g => (g, maxY rows g))) =
        fun g : ℕ => g := rfl
    rw [hcomp]
    exact List.map_id' G
  have hGnodup : G.Nodup := sortedGroups_nodup _
  have hSkeysperm : List.Perm (S.map (fun e => e.1)) G := by
    rw [← hkeys]
    exact hSperm.map _
  have htopnodup : top.Nodup := by
    rw [hTop, List.map_take]
    exact (hSkeysperm.nodup_iff.mpr hGnodup).sublist (List.take_sublist _ _)
  have htoplen : top.length = min K G.length := by
    rw [hTop, List.length_map, List.length_take, hSperm.length_eq, hE,
      List.length_map]
  have htopsubG : ∀ t ∈ top, t ∈ G := by
    intro t ht
    rw [hTop] at ht
    rcases List.mem_map.mp ht with ⟨e, he, rfl⟩
    have heE : e ∈ entries := hSperm.mem_iff.mp (List.mem_of_mem_take he)
    rcases List.mem_map.mp heE with ⟨g, hg, rfl⟩
    exact hg
  have hrow_of_G : ∀ g ∈ G, ∃ r ∈ rows, r.group = g := by
    intro g hg
    rcases List.mem_map.mp (mem_sortedGroups.mp hg) with ⟨r, hr, hrg⟩
    exact ⟨r, hr, hrg⟩
  constructor
  · have houtset : ∀ x, x ∈ (topKFilter K rows).map (fun r => r.group) ↔ x ∈ top := by
      intro x
      constructor
      · intro hx
        rcases List.mem_map.mp hx with ⟨r, hr, rfl⟩
        rw [hfil] at hr
        exact of_decide_eq_true (List.mem_filter.mp hr).2
      · intro hx
        rcases hrow_of_G x (htopsubG x hx) with ⟨r, hr, hrx⟩
        refine List.mem_map.mpr ⟨r, ?_, hrx⟩
        rw [hfil]
        refine List.mem_filter.mpr ⟨hr, decide_eq_true ?_⟩
        rw [hrx]
        exact hx
    have hsetcard : ((topKFilter K rows).map (fun r => r.group)).toFinset =
        top.toFinset := by
      ext x
      simp only [List.mem_toFinset]
      exact houtset x
    have h1 : ((topKFilter K rows).map (fun r => r.group)).dedup.length =
        top.length := by
      rw [← List.card_toFinset, hsetcard, List.card_toFinset, htopnodup.dedup]
    rw [h1, htoplen, hG, sortedGroups_length]
  · intro g h hgout hhrow hhout
    rcases hgout with ⟨rg, hrg, hrgg⟩
    rw [hfil] at hrg
    have hgtop : g ∈ top := by
      rw [← hrgg]
      exact of_decide_eq_true (List.mem_filter.mp hrg).2
    rcases hhrow with ⟨rh, hrh, hrhh⟩
    have hhG : h ∈ G := mem_sortedGroups.mpr (List.mem_map.mpr ⟨rh, hrh, hrhh⟩)
    have hhtop : h ∉ top := by
      intro hmem
      apply hhout
      refine ⟨rh, ?_, hrhh⟩
      rw [hfil]
      refine List.mem_filter.mpr ⟨hrh, decide_eq_true ?_⟩
      rw [hrhh]
      exact hmem
    rcases List.mem_map.mp hgtop with ⟨eg, hegtake, hegfst⟩
    have hegE : eg ∈ entries := hSperm.mem_iff.mp (List.mem_of_mem_take hegtake)
    rcases List.mem_map.mp hegE with ⟨g', hg', hegeq⟩
    have hg'g : g' = g := by
      rw [← hegeq] at hegfst
      exact hegfst
    have hegval : eg = (g, maxY rows g) := by
      subst hg'g
      exact hegeq.symm
    have hhE : ((h, maxY rows h) : ℕ × ℚ) ∈ entries := List.mem_map.mpr ⟨h, hhG, rfl⟩
    have hhS : ((h, maxY rows h) : ℕ × ℚ) ∈ S := hSperm.mem_iff.mpr hhE
    have hhdrop : ((h, maxY rows h) : ℕ × ℚ) ∈ S.drop K := by
      rw [← List.take_append_drop K S] at hhS
      rcases List.mem_append.mp hhS with htk | hdk
      · exact absurd (List.mem_map.mpr ⟨_, htk, rfl⟩) (hTop ▸ hhtop)
      · exact hdk
    have hrel : entryLE eg (h, maxY rows h) :=
      hSsorted.rel_of_mem_take_of_mem_drop hegtake hhdrop
    rw [hegval] at hrel
    rcases hrel with hlt | ⟨heq, hle⟩
    · exact Or.inl hlt
    · refine Or.inr ⟨heq.symm, lt_of_le_of_ne hle ?_⟩
      intro hgh
      exact hhtop (hgh ▸ hgtop)

/-- Concrete input for the C5 witness: two groups with distinct peaks. -/
def c5wrows : List NRow := [⟨1, 0, 5⟩, ⟨2, 1, 3⟩]

/-- C5 witness: the hypotheses of the dominance part are satisfiable — with
`K = 1` on `c5wrows`, group `1` is retained, group `2` is dropped, and the
retained group dominates the dropped one. -/
theorem covid_c5_top_k_witness :
    maxY c5wrows 2 < maxY c5wrows 1 ∨
      (maxY c5wrows 2 = maxY c5wrows 1 ∧ 1 < 2) :=
  (covid_c5_top_k 1 c5wrows).2 1 2 ⟨⟨1, 0, 5⟩, by decide, rfl⟩
    ⟨⟨2, 1, 3⟩, by decide, rfl⟩ (by decide)

end Covid
